import Mathlib

/-!
Verification of the PDF_Info_Retrieval text pipeline.

This file gives a shallow embedding, in Lean 4, of the pure text-processing
core of the repository:

* `src/config.py` — chunk size, academic headers, cleaning patterns;
* `src/text_processor.py` — `TextProcessor.clean_text`, `TextProcessor.create_chunks`;
* `src/paper_analyzer.py` — `clean_pdf_text`, `PaperAnalyzer.extract_sections`,
  `PaperAnalyzer.extract_technical_terms`, `PaperAnalyzer.extract_figures_tables_equations`;
* `src/document_analyzer.py` — `DocumentAnalyzer.analyze_document` and its helpers
  (`_compute_stats`, `_fix_reversed_text`, `_extract_summary`, `_extract_keywords`,
  `_generate_suggested_questions`).

Strings are modelled as `List Char`.  Python's `re` module is modelled by a
small backtracking matcher over a regex AST in which every quantifier ranges
over a single-character class — which is the case for every pattern appearing
in this repository.  Alternatives are tried left to right, and greedy/lazy
quantifiers try longer/shorter expansions first, matching CPython's
backtracking order.  Character classes use ASCII semantics (`\w`, `\d`,
letter case); Python's whitespace set is modelled in full.
-/

set_option maxRecDepth 40000

namespace PdfIR

/-- Python whitespace (`str.isspace`, regex `\s`): the exact set of code
points CPython treats as whitespace. -/
def isPySpace (c : Char) : Bool :=
  c.toNat = 9 || c.toNat = 10 || c.toNat = 11 || c.toNat = 12 || c.toNat = 13 ||
  c.toNat = 28 || c.toNat = 29 || c.toNat = 30 || c.toNat = 31 || c.toNat = 32 ||
  c.toNat = 0x85 || c.toNat = 0xa0 || c.toNat = 0x1680 ||
  (0x2000 ≤ c.toNat && c.toNat ≤ 0x200a) ||
  c.toNat = 0x2028 || c.toNat = 0x2029 || c.toNat = 0x202f ||
  c.toNat = 0x205f || c.toNat = 0x3000

/-- Regex `\w` (ASCII approximation of Python word characters). -/
def isWordChar (c : Char) : Bool :=
  c.isAlpha || c.isDigit || c = '_'

/-- Python `str.lower` (ASCII case folding). -/
def pyLower (s : List Char) : List Char := s.map Char.toLower

/-- Python `str.strip()`: drop leading and trailing whitespace. -/
def pyStrip (s : List Char) : List Char :=
  (s.dropWhile isPySpace).reverse.dropWhile isPySpace |>.reverse

theorem dropWhile_length_le {α : Type} (p : α → Bool) (l : List α) :
    (l.dropWhile p).length ≤ l.length := by
  induction l with
  | nil => simp [List.dropWhile]
  | cons a l ih =>
      simp only [List.dropWhile]
      split
      · exact Nat.le_trans ih (by simp)
      · simp

/-- Accumulator loop for `pySplit`: `acc` is the current token, reversed. -/
def pySplitAux : List Char → List Char → List (List Char)
  | [], acc => if acc = [] then [] else [acc.reverse]
  | c :: rest, acc =>
      if isPySpace c then
        if acc = [] then pySplitAux rest []
        else acc.reverse :: pySplitAux rest []
      else pySplitAux rest (c :: acc)

/-- Python `str.split()` with no argument: split on whitespace runs,
discarding empty tokens. -/
def pySplit (s : List Char) : List (List Char) :=
  pySplitAux s []

/-- Join a list of strings with a single separator character
(Python `sep.join(parts)` for a one-character separator). -/
def joinSep (sep : Char) : List (List Char) → List Char
  | [] => []
  | [w] => w
  | w :: ws => w ++ sep :: joinSep sep ws

/-- Python `str.capitalize()`: first character uppercased, the rest lowercased. -/
def pyCapitalize (s : List Char) : List Char :=
  match s with
  | [] => []
  | c :: rest => c.toUpper :: pyLower rest

/-- Python `str.islower()`: at least one cased character and no uppercase ones
(ASCII). -/
def pyIsLower (s : List Char) : Bool :=
  s.any (fun c => c.isLower) && s.all (fun c => !c.isUpper)

/-- Python `str.title()`: uppercase every letter that does not follow a
letter, lowercase the other letters (ASCII). -/
def pyTitle (s : List Char) : List Char :=
  (s.foldl (fun (acc : List Char × Bool) c =>
      if c.isAlpha then
        (acc.1 ++ [if acc.2 then c.toLower else c.toUpper], true)
      else (acc.1 ++ [c], false)) ([], false)).1

/-- Fuel-driven scan for `pyReplace` (the fuel, initially the length of the
text, dominates the number of steps since each step consumes at least one
character). -/
def pyReplaceGo (old new : List Char) : Nat → List Char → List Char
  | 0, s => s
  | fuel + 1, s =>
      match s with
      | [] => []
      | c :: rest =>
          if old ≠ [] ∧ (c :: rest).take old.length = old then
            new ++ pyReplaceGo old new fuel ((c :: rest).drop old.length)
          else
            c :: pyReplaceGo old new fuel rest

/-- Python `str.replace(old, new)`: replace all non-overlapping occurrences,
scanning left to right (`old` nonempty, as at every call site in the source). -/
def pyReplace (old new : List Char) (s : List Char) : List Char :=
  pyReplaceGo old new s.length s

/-- Fuel-driven scan for `pySplitOn`. -/
def pySplitOnGo (sep : List Char) : Nat → List Char → List (List Char)
  | 0, s => [s]
  | fuel + 1, s =>
      match s with
      | [] => [[]]
      | c :: rest =>
          if sep ≠ [] ∧ (c :: rest).take sep.length = sep then
            [] :: pySplitOnGo sep fuel ((c :: rest).drop sep.length)
          else
            match pySplitOnGo sep fuel rest with
            | [] => [[c]]
            | p :: ps => (c :: p) :: ps

/-- Python `str.split(sep)` for a nonempty separator string: non-overlapping,
left-to-right. -/
def pySplitOn (sep : List Char) (s : List Char) : List (List Char) :=
  pySplitOnGo sep s.length s


/-- Character classes appearing in the repository's regexes. -/
inductive CharSpec : Type where
  | anyChar : CharSpec
  | anyNoNl : CharSpec
  | digit : CharSpec
  | wordChar : CharSpec
  | space : CharSpec
  | alphaChar : CharSpec
  | upperAlpha : CharSpec
  | oneOf (s : List Char) : CharSpec
  | noneOf (s : List Char) : CharSpec
  | ranges (rs : List (Char × Char)) : CharSpec
  | notRanges (rs : List (Char × Char)) : CharSpec
  | orSpec (a b : CharSpec) : CharSpec
deriving DecidableEq

/-- Does character `c` belong to the class? -/
def matchSpec : CharSpec → Char → Bool
  | .anyChar, _ => true
  | .anyNoNl, c => c ≠ '\n'
  | .digit, c => c.isDigit
  | .wordChar, c => isWordChar c
  | .space, c => isPySpace c
  | .alphaChar, c => c.isAlpha
  | .upperAlpha, c => c.isUpper
  | .oneOf s, c => s.contains c
  | .noneOf s, c => !s.contains c
  | .ranges rs, c => rs.any (fun r => r.1 ≤ c && c ≤ r.2)
  | .notRanges rs, c => !rs.any (fun r => r.1 ≤ c && c ≤ r.2)
  | .orSpec a b, c => matchSpec a c || matchSpec b c

/-- Regex AST.  Every quantifier (`repRange`) ranges over a single-character
class, which covers every pattern used by the repository.  `lit`/`litCI` are
case-sensitive / case-insensitive literals (`litCI` is given in lowercase).
`bos`/`eol` are `^`/`$` without `re.MULTILINE`; `bolM`/`eolM` with it.
`wordB` is `\b`; `lookBehind` is a one-character `(?<=[...])`. -/
inductive Regex : Type where
  | eps : Regex
  | lit (s : List Char) : Regex
  | litCI (s : List Char) : Regex
  | cls (c : CharSpec) : Regex
  | seq (a b : Regex) : Regex
  | alt (a b : Regex) : Regex
  | repRange (c : CharSpec) (lo : Nat) (hi : Option Nat) (lazy : Bool) : Regex
  | opt (r : Regex) (lazy : Bool) : Regex
  | group (idx : Nat) (r : Regex) : Regex
  | bos : Regex
  | eol : Regex
  | bolM : Regex
  | eolM : Regex
  | wordB : Regex
  | lookBehind (c : CharSpec) : Regex
deriving DecidableEq

/-- `c*` greedy. -/
def Regex.starG (c : CharSpec) : Regex := .repRange c 0 none false
/-- `c+` greedy. -/
def Regex.plusG (c : CharSpec) : Regex := .repRange c 1 none false
/-- `c+?` lazy. -/
def Regex.plusL (c : CharSpec) : Regex := .repRange c 1 none true
/-- `c?` greedy. -/
def Regex.optG (c : CharSpec) : Regex := .repRange c 0 (some 1) false
/-- `.*?` under DOTALL: lazy star over any character. -/
def Regex.lazyDotStar : Regex := .repRange .anyChar 0 none true
/-- `.*` without DOTALL: greedy star over non-newline characters. -/
def Regex.dotStarNoNl : Regex := .repRange .anyNoNl 0 none false

/-- Sequence of several regexes. -/
def Regex.cat (rs : List Regex) : Regex := rs.foldr Regex.seq .eps

/-- Alternation of several regexes, tried left to right. -/
def Regex.altList : List Regex → Regex
  | [] => .eps
  | [r] => r
  | r :: rs => .alt r (Regex.altList rs)

/-- Captured groups: `(index, start, stop)` entries, most recent first. -/
abbrev Groups := List (Nat × Nat × Nat)

/-- Return the first `some` produced by `f` along the list. -/
def firstSome {α β : Type} (f : α → Option β) : List α → Option β
  | [] => none
  | a :: as =>
      match f a with
      | some b => some b
      | none => firstSome f as

/-- Length of the maximal run of characters of class `c` starting at `pos`. -/
def runLen (c : CharSpec) (t : List Char) (pos : Nat) : Nat :=
  ((t.drop pos).takeWhile (matchSpec c)).length

/-- Case-sensitive literal test at a position. -/
def litAt (s : List Char) (t : List Char) (pos : Nat) : Bool :=
  (t.drop pos).take s.length = s

/-- Case-insensitive literal test at a position (`s` given lowercase). -/
def litCIAt (s : List Char) (t : List Char) (pos : Nat) : Bool :=
  pyLower ((t.drop pos).take s.length) = s

/-- Is the character before `pos` (if any) a word character? -/
def prevIsWord (t : List Char) (pos : Nat) : Bool :=
  match pos with
  | 0 => false
  | p + 1 =>
      match t.get? p with
      | some c => isWordChar c
      | none => false

/-- Is the character at `pos` (if any) a word character? -/
def curIsWord (t : List Char) (pos : Nat) : Bool :=
  match t.get? pos with
  | some c => isWordChar c
  | none => false

/-- The backtracking matcher, in continuation-passing style.  `k` receives
the position after the sub-match and the captured groups.  Alternatives and
quantifier expansions are tried in CPython's backtracking order. -/
def matchC (t : List Char) :
    Regex → Nat → Groups → (Nat → Groups → Option (Nat × Groups)) →
    Option (Nat × Groups)
  | .eps, pos, gs, k => k pos gs
  | .lit s, pos, gs, k =>
      if litAt s t pos then k (pos + s.length) gs else none
  | .litCI s, pos, gs, k =>
      if litCIAt s t pos then k (pos + s.length) gs else none
  | .cls c, pos, gs, k =>
      match t.get? pos with
      | some x => if matchSpec c x then k (pos + 1) gs else none
      | none => none
  | .seq a b, pos, gs, k =>
      matchC t a pos gs (fun p g => matchC t b p g k)
  | .alt a b, pos, gs, k =>
      match matchC t a pos gs k with
      | some r => some r
      | none => matchC t b pos gs k
  | .repRange c lo hi lazy, pos, gs, k =>
      let m := runLen c t pos
      let hi' := match hi with | none => m | some h => min h m
      if lo ≤ hi' then
        let js := List.range' lo (hi' + 1 - lo)
        firstSome (fun j => k (pos + j) gs) (if lazy then js else js.reverse)
      else none
  | .opt r lazy, pos, gs, k =>
      if lazy then
        match k pos gs with
        | some res => some res
        | none => matchC t r pos gs k
      else
        match matchC t r pos gs k with
        | some res => some res
        | none => k pos gs
  | .group i r, pos, gs, k =>
      matchC t r pos gs (fun p g => k p ((i, pos, p) :: g))
  | .bos, pos, gs, k => if pos = 0 then k pos gs else none
  | .eol, pos, gs, k =>
      if pos = t.length ∨ (pos + 1 = t.length ∧ t.get? pos = some '\n') then
        k pos gs
      else none
  | .bolM, pos, gs, k =>
      match pos with
      | 0 => k 0 gs
      | p + 1 => if t.get? p = some '\n' then k (p + 1) gs else none
  | .eolM, pos, gs, k =>
      if pos = t.length ∨ t.get? pos = some '\n' then k pos gs else none
  | .wordB, pos, gs, k =>
      if prevIsWord t pos ≠ curIsWord t pos then k pos gs else none
  | .lookBehind c, pos, gs, k =>
      match pos with
      | 0 => none
      | p + 1 =>
          match t.get? p with
          | some x => if matchSpec c x then k pos gs else none
          | none => none

/-- Attempt to match `r` at position `pos`; returns the end position and the
captured groups of the first (highest-priority) match. -/
def matchAt (r : Regex) (t : List Char) (pos : Nat) : Option (Nat × Groups) :=
  matchC t r pos [] (fun p g => some (p, g))

/-- A regex match: overall span plus captured groups. -/
structure RMatch where
  mstart : Nat
  mstop : Nat
  groups : Groups
deriving DecidableEq

/-- Scan positions `pos, pos+1, …` for the leftmost match (`re.search`
starting at `pos`); the fuel, initially `t.length + 1 - pos`, bounds the
number of positions tried. -/
def searchGo (r : Regex) (t : List Char) : Nat → Nat → Option RMatch
  | 0, _ => none
  | fuel + 1, pos =>
      if pos ≤ t.length then
        match matchAt r t pos with
        | some (e, gs) => some ⟨pos, e, gs⟩
        | none => searchGo r t fuel (pos + 1)
      else none

/-- `re.search`: leftmost match in the whole text. -/
def reSearch (r : Regex) (t : List Char) : Option RMatch :=
  searchGo r t (t.length + 1) 0

/-- `re.finditer`: all non-overlapping matches, scanning left to right.
All patterns in the repository match at least one character, so the scan
position advances by at least one each step (the `max` is a safety net for
the termination measure). -/
def finditerGo (r : Regex) (t : List Char) : Nat → Nat → List RMatch
  | 0, _ => []
  | fuel + 1, pos =>
      match searchGo r t (t.length + 1 - pos) pos with
      | none => []
      | some m => m :: finditerGo r t fuel (max m.mstop (m.mstart + 1))

/-- All non-overlapping matches of `r` in `t`. -/
def finditer (r : Regex) (t : List Char) : List RMatch :=
  finditerGo r t (t.length + 1) 0

/-- The slice `t[a:b]` of a text (Python slicing with `0 ≤ a ≤ b`). -/
def sliceOf (t : List Char) (a b : Nat) : List Char :=
  (t.drop a).take (b - a)

/-- Content of capture group `i` of a match (empty if absent — every group
used by the repository participates in every match of its pattern). -/
def groupSlice (t : List Char) (m : RMatch) (i : Nat) : List Char :=
  match m.groups.find? (fun g => g.1 = i) with
  | some g => sliceOf t g.2.1 g.2.2
  | none => []

/-- Replace every match of `r` by `repl` (`re.sub`). -/
def subAllGo (t : List Char) (repl : List Char) (pos : Nat) :
    List RMatch → List Char
  | [] => sliceOf t pos t.length
  | m :: ms => sliceOf t pos m.mstart ++ repl ++ subAllGo t repl m.mstop ms

/-- `re.sub(r, repl, t)`. -/
def subAll (r : Regex) (repl : List Char) (t : List Char) : List Char :=
  subAllGo t repl 0 (finditer r t)

/-- Split on matches, keeping the content of capture group 1
(`re.split` with one capturing group in the pattern). -/
def splitCapGo (t : List Char) (pos : Nat) : List RMatch → List (List Char)
  | [] => [sliceOf t pos t.length]
  | m :: ms => sliceOf t pos m.mstart :: groupSlice t m 1 :: splitCapGo t m.mstop ms

/-- `re.split` for a pattern with one capturing group. -/
def splitCap (r : Regex) (t : List Char) : List (List Char) :=
  splitCapGo t 0 (finditer r t)

/-- Split on matches, groups discarded (`re.split` with no capturing group). -/
def splitNoCapGo (t : List Char) (pos : Nat) : List RMatch → List (List Char)
  | [] => [sliceOf t pos t.length]
  | m :: ms => sliceOf t pos m.mstart :: splitNoCapGo t m.mstop ms

/-- `re.split` for a pattern without capturing groups. -/
def splitNoCap (r : Regex) (t : List Char) : List (List Char) :=
  splitNoCapGo t 0 (finditer r t)

/-- `re.findall` for a pattern with no capturing group: the matched slices. -/
def findallWhole (r : Regex) (t : List Char) : List (List Char) :=
  (finditer r t).map (fun m => sliceOf t m.mstart m.mstop)

/-- `re.findall` for a pattern with exactly one capturing group: the group
slices. -/
def findallGroup1 (r : Regex) (t : List Char) : List (List Char) :=
  (finditer r t).map (fun m => groupSlice t m 1)

/-- `len(re.findall(r, t))`. -/
def findallCount (r : Regex) (t : List Char) : Nat := (finditer r t).length

/-- `bool(re.search(r, t))`. -/
def searchBool (r : Regex) (t : List Char) : Bool := (reSearch r t).isSome

/-! ### `src/config.py` -/

/-- `Config.chunk_size` default. -/
def defaultChunkSize : Nat := 1500

/-- `Config.academic_headers`. -/
def academicHeaders : List (List Char) :=
  ["Abstract".toList, "Introduction".toList, "Methods".toList,
   "Methodology".toList, "Results".toList, "Discussion".toList,
   "Conclusion".toList]

/-- Pattern `\b[\w.-]+?@\w+?\.\w+?\b` (email addresses). -/
def emailPat : Regex :=
  .cat [.wordB, .repRange (.orSpec .wordChar (.oneOf ['.', '-'])) 1 none true,
        .lit ['@'], .repRange .wordChar 1 none true, .lit ['.'],
        .repRange .wordChar 1 none true, .wordB]

/-- Pattern `\[[^\]]*\]` (text in square brackets). -/
def bracketPat : Regex :=
  .cat [.lit ['['], Regex.starG (.noneOf [']']), .lit [']']]

/-- Pattern `Figure \d+: [^\n]+` (figure captions). -/
def figCaptionPat : Regex :=
  .cat [.lit "Figure ".toList, Regex.plusG .digit, .lit ": ".toList,
        Regex.plusG (.noneOf ['\n'])]

/-- Pattern `Table \d+: [^\n]+` (table captions). -/
def tableCaptionPat : Regex :=
  .cat [.lit "Table ".toList, Regex.plusG .digit, .lit ": ".toList,
        Regex.plusG (.noneOf ['\n'])]

/-- Pattern `^Source:.*$` with `re.MULTILINE` (source lines). -/
def sourceLinePat : Regex :=
  .cat [.bolM, .lit "Source:".toList, Regex.dotStarNoNl, .eolM]

/-- Pattern `[^\x00-\x7F]+` (non-ASCII characters). -/
def nonAsciiPat : Regex :=
  .repRange (.notRanges [(Char.ofNat 0, Char.ofNat 0x7f)]) 1 none false

/-- Pattern `\bSee Figure \d+\b` (references to figures). -/
def seeFigurePat : Regex :=
  .cat [.wordB, .lit "See Figure ".toList, Regex.plusG .digit, .wordB]

/-- Pattern `\bEq\.\s*\d+\b` (equation references). -/
def eqRefPat : Regex :=
  .cat [.wordB, .lit "Eq.".toList, Regex.starG .space, Regex.plusG .digit,
        .wordB]

/-- Pattern `\b(Table|Fig)\.\s*\d+\b` (other reference styles). -/
def tableFigRefPat : Regex :=
  .cat [.wordB, .group 1 (.alt (.lit "Table".toList) (.lit "Fig".toList)),
        .lit ['.'], Regex.starG .space, Regex.plusG .digit, .wordB]

/-- Pattern `<[^>]+>` (HTML tags). -/
def htmlTagPat : Regex :=
  .cat [.lit ['<'], Regex.plusG (.noneOf ['>']), .lit ['>']]

/-- `Config.cleaning_patterns`, in order.  All are compiled with
`re.MULTILINE` only, hence case-sensitive. -/
def cleaningPatterns : List Regex :=
  [emailPat, bracketPat, figCaptionPat, tableCaptionPat, sourceLinePat,
   nonAsciiPat, seeFigurePat, eqRefPat, tableFigRefPat, htmlTagPat]

/-- Pattern `\s+`. -/
def wsRunPat : Regex := Regex.plusG .space

/-- `Config.header_pattern`: `\n\s*(Abstract|…|Conclusion)\s*\n`, compiled
with `re.IGNORECASE`. -/
def headerPat : Regex :=
  .cat [.lit ['\n'], Regex.starG .space,
        .group 1 (Regex.altList (academicHeaders.map fun h => .litCI (pyLower h))),
        Regex.starG .space, .lit ['\n']]

/-! ### `src/text_processor.py` -/

/-- `TextChunk` (dataclass in `text_processor.py`). -/
structure TextChunk where
  content : List Char
  start_offset : Nat := 0
  end_offset : Nat := 0
  sect : Option (List Char) := none
deriving DecidableEq

/-- `TextProcessor.clean_text`: lowercase, apply the cleaning patterns in
order (each `re.sub(p, '', text)`), collapse whitespace runs to single
spaces, strip. -/
def cleanText (text : List Char) : List Char :=
  if text = [] then []
  else
    let t := pyLower text
    let t := cleaningPatterns.foldl (fun acc p => subAll p [] acc) t
    pyStrip (subAll wsRunPat [' '] t)

/-- `TextProcessor._section_pattern.match(section)`:
`re.match(r'^(Abstract|…|Conclusion)$', section, re.IGNORECASE)`.
Without `re.MULTILINE`, `$` matches at the end of the string or just before
a final newline, so the match succeeds exactly when the string is a header
(case-insensitively), optionally followed by one final newline. -/
def sectionHeaderTest (s : List Char) : Bool :=
  academicHeaders.any fun h =>
    pyLower s = pyLower h || pyLower s = pyLower h ++ ['\n']

/-- State of the chunking loop in `TextProcessor.create_chunks`:
accumulated chunks, `current_chunk_words`, `current_length`,
`current_offset`, `current_section`. -/
structure ChunkState where
  chunks : List TextChunk
  buf : List (List Char)
  len : Nat
  off : Nat
  sec : Option (List Char)
deriving DecidableEq

/-- Build the `TextChunk` flushed from the current buffer:
`' '.join(current_chunk_words).strip()` with the current offset and section. -/
def flushChunk (st : ChunkState) : TextChunk :=
  let c := pyStrip (joinSep ' ' st.buf)
  ⟨c, st.off, st.off + c.length, st.sec⟩

/-- One iteration of the inner word loop of `create_chunks`. -/
def stepWord (chunkSize : Nat) (st : ChunkState) (w : List Char) : ChunkState :=
  let wordLen := w.length + 1
  if st.len + wordLen > chunkSize then
    let st1 :=
      if st.buf = [] then st
      else { st with chunks := st.chunks ++ [flushChunk st] }
    { st1 with buf := [w], len := wordLen }
  else
    { st with buf := st.buf ++ [w], len := st.len + wordLen }

/-- One iteration of the outer `for section in sections` loop of
`create_chunks`. -/
def stepPart (chunkSize : Nat) (st : ChunkState) (part : List Char) : ChunkState :=
  if sectionHeaderTest part then
    let st1 :=
      if st.buf = [] then st
      else { st with chunks := st.chunks ++ [flushChunk st], buf := [], len := 0 }
    { st1 with sec := some (pyCapitalize part), buf := st1.buf ++ [part],
               off := st1.off + part.length + 1 }
  else
    (pySplit part).foldl (stepWord chunkSize) st

/-- `TextProcessor.create_chunks(text, return_metadata=True)`. -/
def createChunks (chunkSize : Nat) (text : List Char) : List TextChunk :=
  if text = [] then []
  else
    let parts := splitCap headerPat text
    let st := parts.foldl (stepPart chunkSize) ⟨[], [], 0, 0, none⟩
    if st.buf = [] then st.chunks else st.chunks ++ [flushChunk st]

/-! ### `src/paper_analyzer.py` -/

/-- The ASCII apostrophe character. -/
def aposChar : Char := Char.ofNat 39

/-- Pattern `>[A-Za-z]+<` (reversed text markers). -/
def revMarkerPat : Regex :=
  .cat [.lit ['>'], Regex.plusG .alphaChar, .lit ['<']]

/-- Pattern `[\x00-\x08\x0b\x0c\x0e-\x1f\x7f-\x9f]` (control characters);
a plain character class, so each match is a single character. -/
def controlCharPat : Regex :=
  .cls (.ranges [(Char.ofNat 0, Char.ofNat 8), (Char.ofNat 0x0b, Char.ofNat 0x0c),
                 (Char.ofNat 0x0e, Char.ofNat 0x1f), (Char.ofNat 0x7f, Char.ofNat 0x9f)])

/-- The `ligatures` replacement table of `clean_pdf_text`, in insertion
order, exactly as the Python parser reads the (byte-mangled) source file:
the two smart-double-quote entries in the original repository have collapsed
to a duplicate-key identity entry for the ASCII double quote, and the two
smart-single-quote entries have collapsed to a single entry whose key is the
seven-character triple-quoted string between them. -/
def ligatures : List (List Char × List Char) :=
  [("ﬁ".toList, "fi".toList), ("ﬂ".toList, "fl".toList),
   ("ﬀ".toList, "ff".toList), ("ﬃ".toList, "ffi".toList),
   ("ﬄ".toList, "ffl".toList), ("ﬅ".toList, "st".toList),
   ("ﬆ".toList, "st".toList), ("—".toList, "-".toList),
   ("–".toList, "-".toList), ("\"".toList, "\"".toList),
   ([':', ' ', '"', aposChar, '"', ',', ' '], [aposChar]),
   ("…".toList, "...".toList), ("•".toList, "-".toList)]

/-- Pattern `\s[<>]\s` (isolated special characters). -/
def isolatedAnglePat : Regex :=
  .cat [.cls .space, .cls (.oneOf ['<', '>']), .cls .space]

/-- Pattern `<[^>]{0,3}>` (remaining short angle-bracket tags). -/
def shortTagPat : Regex :=
  .cat [.lit ['<'], .repRange (.noneOf ['>']) 0 (some 3) false, .lit ['>']]

/-- `clean_pdf_text` (module-level function in `paper_analyzer.py`). -/
def cleanPdfText (text : List Char) : List Char :=
  if text = [] then []
  else
    let t := subAll revMarkerPat [] text
    let t := subAll controlCharPat [] t
    let t := ligatures.foldl (fun acc p => pyReplace p.1 p.2 acc) t
    let t := subAll wsRunPat [' '] t
    let t := subAll isolatedAnglePat [' '] t
    let t := subAll shortTagPat [] t
    pyStrip t

/-- `SECTION_PATTERNS`: the inner alternatives (regex, display title), in
source order. -/
def sectionPatterns : List (Regex × List Char) :=
  [(.litCI "abstract".toList, "Abstract".toList),
   (.litCI "introduction".toList, "Introduction".toList),
   (.cat [.litCI "related".toList, Regex.starG .space, .litCI "work".toList],
    "Related Work".toList),
   (.litCI "background".toList, "Background".toList),
   (.cat [.litCI "literature".toList, Regex.starG .space, .litCI "review".toList],
    "Literature Review".toList),
   (.cat [.litCI "method".toList,
          .opt (.alt (.litCI "ology".toList) (.litCI "s".toList)) false],
    "Methodology".toList),
   (.litCI "approach".toList, "Approach".toList),
   (.cat [.litCI "experiment".toList,
          .opt (.alt (.litCI "s".toList) (.litCI "al".toList)) false,
          .opt (.cat [Regex.starG .space, .litCI "setup".toList]) false],
    "Experiments".toList),
   (.cat [.litCI "result".toList, .opt (.litCI "s".toList) false],
    "Results".toList),
   (.litCI "evaluation".toList, "Evaluation".toList),
   (.litCI "discussion".toList, "Discussion".toList),
   (.litCI "analysis".toList, "Analysis".toList),
   (.cat [.litCI "conclusion".toList, .opt (.litCI "s".toList) false],
    "Conclusion".toList),
   (.cat [.litCI "future".toList, Regex.starG .space, .litCI "work".toList],
    "Future Work".toList),
   (.cat [.litCI "acknowledg".toList, .opt (.litCI "e".toList) false,
          .litCI "ment".toList, .opt (.litCI "s".toList) false],
    "Acknowledgments".toList),
   (.cat [.litCI "reference".toList, .opt (.litCI "s".toList) false],
    "References".toList),
   (.litCI "appendix".toList, "Appendix".toList)]

/-- The scan regex of `extract_sections`:
`(?:^|\n)\s*(?:[\dIVXivx]+\.?\s*)?(pattern)\s*(?:\n|$)` with `re.IGNORECASE`
and no `re.MULTILINE` (so `^` is start of string and `$` is end of string or
before a final newline). -/
def secScanRegex (p : Regex) : Regex :=
  .cat [.alt .bos (.lit ['\n']),
        Regex.starG .space,
        .opt (.cat [Regex.plusG (.orSpec .digit (.oneOf "IVXivx".toList)),
                    Regex.optG (.oneOf ['.']), Regex.starG .space]) false,
        .group 1 p,
        Regex.starG .space,
        .alt (.lit ['\n']) .eol]

/-- `Section` (dataclass in `paper_analyzer.py`). -/
structure PaperSection where
  id : List Char
  title : List Char
  content : List Char
  page : Nat
  start_pos : Nat
  end_pos : Nat
  progress : Nat := 0
deriving DecidableEq

/-- A recorded section-header match (`{'title', 'start', 'matched'}`). -/
structure SecMatch where
  title : List Char
  start : Nat
  matched : List Char
deriving DecidableEq

/-- All section-header matches, found pattern by pattern over the lowercased
text (as `extract_sections` does), in `SECTION_PATTERNS` order. -/
def sectionMatchesOf (text : List Char) : List SecMatch :=
  let tl := pyLower text
  (sectionPatterns.map fun pt =>
    (finditer (secScanRegex pt.1) tl).map fun m =>
      ⟨pt.2, m.mstart, groupSlice tl m 1⟩).flatten

/-- Stable insertion step: `x` goes after every earlier element `y` with
`before y x`. -/
def pyInsertStable {α : Type} (before : α → α → Bool) (x : α) :
    List α → List α
  | [] => [x]
  | y :: ys => if before y x then y :: pyInsertStable before x ys
               else x :: y :: ys

/-- Stable sort (Python `list.sort`): with `before y x` meaning "`y` sorts
strictly before `x`", equal elements keep their original order. -/
def pySortStable {α : Type} (before : α → α → Bool) (l : List α) : List α :=
  l.foldr (pyInsertStable before) []

/-- `section['title'].lower().replace(' ', '_')`. -/
def sectionIdOf (title : List Char) : List Char :=
  pyReplace [' '] ['_'] (pyLower title)

/-- The section-construction loop of `extract_sections`: each section runs
from its match to the next match (or end of text); content is the stripped
span capped at 2000 characters; page is `max(1, start // 3000 + 1)`. -/
def buildSections (t : List Char) : List SecMatch → List PaperSection
  | [] => []
  | m :: rest =>
      let endPos := match rest with
        | [] => t.length
        | m2 :: _ => m2.start
      let content := pyStrip (sliceOf t m.start endPos)
      ⟨sectionIdOf m.title, m.title, content.take 2000,
       max 1 (m.start / 3000 + 1), m.start, endPos, 0⟩ :: buildSections t rest

/-- `PaperAnalyzer.extract_sections`. -/
def extractSections (text : List Char) : List PaperSection :=
  let ms := pySortStable (fun a b => a.start < b.start) (sectionMatchesOf text)
  let sections := buildSections text ms
  if sections = [] then
    [⟨"document".toList, "Full Document".toList, text.take 2000, 1, 0,
      text.length, 0⟩]
  else sections

/-- `COMMON_TECHNICAL_TERMS`.  The source stores these in a Python `set`,
whose iteration order is unspecified; we fix the listing order of the source
file (only output order of equal-frequency terms depends on it). -/
def commonTechnicalTerms : List (List Char) :=
  ["transformer", "attention", "embedding", "encoder", "decoder",
   "neural network", "deep learning", "machine learning", "nlp",
   "bert", "gpt", "lstm", "rnn", "cnn", "gan", "vae",
   "gradient descent", "backpropagation", "optimization", "loss function",
   "softmax", "relu", "sigmoid", "activation function",
   "fine-tuning", "pre-training", "transfer learning",
   "tokenization", "vocabulary", "corpus",
   "precision", "recall", "f1 score", "accuracy", "bleu",
   "hyperparameter", "epoch", "batch size", "learning rate",
   "overfitting", "underfitting", "regularization", "dropout",
   "convolution", "pooling", "kernel", "stride",
   "self-attention", "multi-head attention", "positional encoding",
   "layer normalization", "batch normalization",
   "cross-entropy", "kl divergence", "mse", "mae",
   "adam", "sgd", "momentum", "scheduler",
   "inference", "training", "validation", "test set",
   "benchmark", "baseline", "state-of-the-art", "sota",
   "ablation study", "case study", "empirical",
   "latent", "representation", "feature", "dimension",
   "semantic", "syntactic", "contextual",
   "supervised", "unsupervised", "semi-supervised", "reinforcement",
   "classification", "regression", "clustering", "segmentation",
   "retrieval", "generation", "summarization", "translation"].map String.toList

/-- `Term` (dataclass in `paper_analyzer.py`). -/
structure TermRec where
  term : List Char
  definition : List Char
  frequency : Nat
  context : List Char
deriving DecidableEq

/-- Keys of a `collections.Counter` built from `xs`, in first-occurrence
order. -/
def counterKeys {α : Type} [DecidableEq α] (xs : List α) : List α :=
  xs.foldl (fun acc x => if acc.contains x then acc else acc ++ [x]) []

/-- `collections.Counter(xs)` as an ordered association list. -/
def counterPairs {α : Type} [DecidableEq α] (xs : List α) : List (α × Nat) :=
  (counterKeys xs).map fun k => (k, xs.count k)

/-- `Counter.most_common(n)`: stable sort by count descending, first `n`. -/
def mostCommon {α : Type} (n : Nat) (pairs : List (α × Nat)) : List (α × Nat) :=
  (pySortStable (fun y x => y.2 > x.2) pairs).take n

/-- Pattern `\b([A-Z]{2,6})\b` (capitalized acronyms). -/
def acronymPat : Regex :=
  .cat [.wordB, .group 1 (.repRange .upperAlpha 2 (some 6) false), .wordB]

/-- The acronym stoplist of `extract_technical_terms`. -/
def acronymStop : List (List Char) :=
  ["THE", "AND", "FOR", "WITH", "FROM", "THIS", "THAT", "EACH"].map String.toList

/-- Pattern `(?<=[.!?])\s+` (sentence splitting). -/
def sentenceSplitPat : Regex :=
  .cat [.lookBehind (.oneOf ['.', '!', '?']), Regex.plusG .space]

/-- `rfind(' ')` as an integer index (`-1` when absent). -/
def lastSpaceIndex (l : List Char) : Int :=
  (l.foldl (fun (acc : Int × Nat) ch =>
      (if ch = ' ' then Int.ofNat acc.2 else acc.1, acc.2 + 1)) (-1, 0)).1

/-- The context-sentence loop of `extract_technical_terms`: the first
sentence that contains the term (case-insensitively, with word boundaries)
and whose `clean_pdf_text` is longer than 20 characters and starts with an
uppercase character. -/
def contextLoop (term : List Char) : List (List Char) → List Char
  | [] => []
  | s :: rest =>
      if searchBool (.cat [.wordB, .litCI (pyLower term), .wordB]) s then
        let cs := cleanPdfText s
        if 20 < cs.length ∧ (cs.headD ' ').isUpper = true
        then cs
        else contextLoop term rest
      else contextLoop term rest

/-- The context truncation of `extract_technical_terms`: cap at 200
characters; if capped exactly and the last space lies after index 150, cut
there and append an ellipsis. -/
def truncContext (ctx : List Char) : List Char :=
  if ctx = [] then []
  else
    let c := ctx.take 200
    if c.length = 200 then
      let ls := lastSpaceIndex c
      if ls > 150 then c.take ls.toNat ++ "...".toList else c
    else c

/-- Build one `Term` record from a `(candidate, count)` pair. -/
def mkTermRec (cleaned : List Char) (p : List Char × Nat) : TermRec :=
  let sentences := splitNoCap sentenceSplitPat cleaned
  let ctx := truncContext (contextLoop p.1 sentences)
  ⟨if pyIsLower p.1 then pyTitle p.1 else p.1, [], p.2,
   if ctx = [] then "Term found in document".toList else ctx⟩

/-- `PaperAnalyzer.extract_technical_terms(text, top_n)`. -/
def extractTechnicalTermsTop (topN : Nat) (text : List Char) : List TermRec :=
  let cleaned := cleanPdfText text
  let tl := pyLower cleaned
  let termCounts := commonTechnicalTerms.filterMap fun term =>
    let c := findallCount (.cat [.wordB, .lit term, .wordB]) tl
    if c > 0 then some (term, c) else none
  let acroPairs := counterPairs (findallGroup1 acronymPat cleaned)
  let allTerms := termCounts ++
    (mostCommon 10 acroPairs).filter fun p => !acronymStop.contains p.1
  let sortedTerms := pySortStable (fun y x => y.2 > x.2) allTerms
  (sortedTerms.take topN).map (mkTermRec cleaned)

/-- `extract_technical_terms` with the default `top_n = 20`. -/
def extractTechnicalTerms (text : List Char) : List TermRec :=
  extractTechnicalTermsTop 20 text

/-- `Figure` (dataclass in `paper_analyzer.py`). -/
structure FigureRec where
  id : Nat
  ftype : List Char
  title : List Char
  caption : List Char
  page : Nat
  content : List Char
deriving DecidableEq

/-- `(?:Figure|Fig\.?)` with `re.IGNORECASE`. -/
def figHead : Regex :=
  .alt (.litCI "figure".toList)
       (.cat [.litCI "fig".toList, Regex.optG (.oneOf ['.'])])

/-- Pattern `(?:Figure|Fig\.?)\s*(\d+)[:\.]?\s*([^\n]+)` (`re.IGNORECASE`). -/
def figPat1 : Regex :=
  .cat [figHead, Regex.starG .space, .group 1 (Regex.plusG .digit),
        Regex.optG (.oneOf [':', '.']), Regex.starG .space,
        .group 2 (Regex.plusG (.noneOf ['\n']))]

/-- Pattern `(?:Figure|Fig\.?)\s*(\d+)` (`re.IGNORECASE`). -/
def figPat2 : Regex :=
  .cat [figHead, Regex.starG .space, .group 1 (Regex.plusG .digit)]

/-- Pattern `(?:Table)\s*(\d+)[:\.]?\s*([^\n]+)` (`re.IGNORECASE`). -/
def tablePat1 : Regex :=
  .cat [.litCI "table".toList, Regex.starG .space, .group 1 (Regex.plusG .digit),
        Regex.optG (.oneOf [':', '.']), Regex.starG .space,
        .group 2 (Regex.plusG (.noneOf ['\n']))]

/-- Pattern `(?:Table)\s*(\d+)` (`re.IGNORECASE`). -/
def tablePat2 : Regex :=
  .cat [.litCI "table".toList, Regex.starG .space, .group 1 (Regex.plusG .digit)]

/-- Pattern `(?:Equation|Eq\.?)\s*[(\[]?(\d+)[)\]]?` (case-sensitive). -/
def eqPat1 : Regex :=
  .cat [.alt (.lit "Equation".toList)
             (.cat [.lit "Eq".toList, Regex.optG (.oneOf ['.'])]),
        Regex.starG .space, Regex.optG (.oneOf ['(', '[']),
        .group 1 (Regex.plusG .digit), Regex.optG (.oneOf [')', ']'])]

/-- Pattern `\$\$([^$]+)\$\$` (LaTeX display math). -/
def eqPat2 : Regex :=
  .cat [.lit "$$".toList, .group 1 (Regex.plusG (.noneOf ['$'])),
        .lit "$$".toList]

/-- Pattern `\\\[([^\]]+)\\\]` (LaTeX equation). -/
def eqPat3 : Regex :=
  .cat [.lit ['\\', '['], .group 1 (Regex.plusG (.noneOf [']'])),
        .lit ['\\', ']']]

/-- Tagged match source for `extract_figures_tables_equations`:
`0`/`1` captioned/bare figure, `2`/`3` captioned/bare table, `4` equation. -/
def figItemOf (t : List Char) (iid : Nat) : Nat × RMatch → FigureRec
  | (0, m) =>
      let num := groupSlice t m 1
      ⟨iid, "figure".toList, "Figure ".toList ++ num,
       (pyStrip (groupSlice t m 2)).take 100, max 1 (m.mstart / 3000 + 1),
       sliceOf t m.mstart m.mstop⟩
  | (1, m) =>
      let num := groupSlice t m 1
      ⟨iid, "figure".toList, "Figure ".toList ++ num,
       ("Figure ".toList ++ num).take 100, max 1 (m.mstart / 3000 + 1),
       sliceOf t m.mstart m.mstop⟩
  | (2, m) =>
      let num := groupSlice t m 1
      ⟨iid, "table".toList, "Table ".toList ++ num,
       (pyStrip (groupSlice t m 2)).take 100, max 1 (m.mstart / 3000 + 1),
       sliceOf t m.mstart m.mstop⟩
  | (3, m) =>
      let num := groupSlice t m 1
      ⟨iid, "table".toList, "Table ".toList ++ num,
       ("Table ".toList ++ num).take 100, max 1 (m.mstart / 3000 + 1),
       sliceOf t m.mstart m.mstop⟩
  | (_, m) =>
      ⟨iid, "equation".toList, "Equation ".toList ++ (toString iid).toList,
       "Mathematical expression".toList, max 1 (m.mstart / 3000 + 1),
       (groupSlice t m 1).take 200⟩

/-- Sequential id assignment over the tagged matches. -/
def buildFigs (t : List Char) (iid : Nat) : List (Nat × RMatch) → List FigureRec
  | [] => []
  | tm :: rest => figItemOf t iid tm :: buildFigs t (iid + 1) rest

/-- `PaperAnalyzer.extract_figures_tables_equations`. -/
def extractFiguresTablesEquations (t : List Char) : List FigureRec :=
  let tagged :=
    (finditer figPat1 t).map (fun m => (0, m)) ++
    (finditer figPat2 t).map (fun m => (1, m)) ++
    (finditer tablePat1 t).map (fun m => (2, m)) ++
    (finditer tablePat2 t).map (fun m => (3, m)) ++
    (finditer eqPat1 t).map (fun m => (4, m)) ++
    (finditer eqPat2 t).map (fun m => (4, m)) ++
    (finditer eqPat3 t).map (fun m => (4, m))
  (buildFigs t 1 tagged).take 20

/-! ### `src/document_analyzer.py` -/

/-- `DocumentAnalyzer.STOPWORDS`, exactly as listed in the source (the
Python `frozenset` removes the few duplicated entries; only membership is
ever used, so the duplicates are harmless here). -/
def stopwordsList : List (List Char) :=
  ["a", "an", "the", "and", "or", "but", "in", "on", "at", "to", "for",
   "of", "with", "by", "from", "is", "are", "was", "were", "be", "been",
   "being", "have", "has", "had", "do", "does", "did", "will", "would",
   "could", "should", "may", "might", "shall", "can", "need", "dare",
   "ought", "used", "it", "its", "this", "that", "these", "those",
   "i", "me", "my", "we", "our", "you", "your", "he", "she", "they",
   "them", "their", "what", "which", "who", "when", "where", "how",
   "not", "no", "nor", "as", "if", "then", "than", "too", "very",
   "also", "just", "about", "above", "after", "again", "all", "am",
   "any", "because", "before", "below", "between", "both", "each",
   "few", "further", "here", "into", "more", "most", "other", "out",
   "over", "own", "same", "so", "some", "such", "through", "under",
   "until", "up", "while", "during", "et", "al", "fig", "figure",
   "table", "however", "thus", "therefore", "although", "since",
   "using", "based", "two", "one", "three", "four", "five",
   "new", "first", "well", "also", "us", "use", "used", "many",
   "much", "even", "still", "including", "given", "show", "shows",
   "shown", "see", "e", "g", "eg", "ie", "etc", "vs",
   "paper", "section", "method", "approach", "propose", "proposed",
   "present", "presented", "work", "study", "result", "results",
   "number", "set", "order", "case", "high", "low", "large", "small",
   "different", "similar", "previous", "following", "respectively",
   "corresponding", "according", "compared", "example", "consider",
   "note", "able", "get", "got", "take", "taken", "make", "made",
   "provide", "provides", "provide", "total", "only", "without",
   "within", "among", "across", "per", "via", "like", "specific",
   "particular", "general", "overall", "left", "right", "end",
   "part", "each", "every", "either", "neither", "rather"].map String.toList

/-- The `stats` dictionary: the empty-input branch of `analyze_document`
only carries the `words` and `reading_time` keys, so the other keys are
optional. -/
structure StatsRec where
  words : Nat
  reading_time : List Char
  sentences : Option Nat
  paragraphs : Option Nat
  characters : Option Nat
deriving DecidableEq

/-- The analysis dictionary returned by `analyze_document`. -/
structure AnalysisRec where
  stats : StatsRec
  summary : List Char
  keywords : List (List Char)
  suggested_questions : List (List Char)
deriving DecidableEq

/-- `DocumentAnalyzer._compute_stats`. -/
def computeStats (t : List Char) : StatsRec :=
  let wordCount := (pySplit t).length
  let readingMinutes := max 1 ((wordCount + 249) / 250)
  let sentences := splitNoCap (Regex.plusG (.oneOf ['.', '!', '?'])) t
  let sentenceCount := (sentences.filter fun s => pyStrip s ≠ []).length
  let paragraphs := pySplitOn "\n\n".toList t
  let paragraphCount := (paragraphs.filter fun p => pyStrip p ≠ []).length
  ⟨wordCount, (toString readingMinutes).toList ++ " min".toList,
   some sentenceCount, some paragraphCount, some t.length⟩

/-- The `common_words` dictionary of `_fix_reversed_text`. -/
def commonWords : List (List Char) :=
  ["the", "and", "for", "are", "but", "not", "you", "all", "can",
   "had", "was", "one", "our", "has", "his", "how", "its", "may",
   "new", "now", "see", "way", "who", "did", "get", "say", "she",
   "use", "with", "this", "that", "have", "from", "they", "been",
   "each", "which", "their", "will", "other", "about", "many",
   "then", "them", "these", "some", "would", "make", "like",
   "model", "data", "input", "output", "method", "paper"].map String.toList

/-- `DocumentAnalyzer._fix_reversed_text`. -/
def fixReversedText (t : List Char) : List Char :=
  let words := pySplit t
  if words.length < 10 then t
  else
    let sample := words.take (min 80 words.length)
    let normalHits := (sample.filter fun w => commonWords.contains (pyLower w)).length
    let reversedHits := (sample.filter fun w => commonWords.contains (pyLower w.reverse)).length
    if reversedHits > normalHits * 2 ∧ reversedHits > 3 then
      joinSep ' ' (words.map List.reverse)
    else t

/-- `(?:abstract|summary)` with `re.IGNORECASE`. -/
def abstractKw : Regex :=
  .alt (.litCI "abstract".toList) (.litCI "summary".toList)

/-- First abstract pattern of `_extract_summary`:
`(?:abstract|summary)\s*[:\n]\s*(.*?)(?:\n\s*(?:introduction|keywords|1\.|1\s|I\.))`
with `re.IGNORECASE | re.DOTALL`. -/
def abstractPat1 : Regex :=
  .cat [abstractKw, Regex.starG .space, .cls (.oneOf [':', '\n']),
        Regex.starG .space, .group 1 Regex.lazyDotStar,
        .lit ['\n'], Regex.starG .space,
        Regex.altList [.litCI "introduction".toList, .litCI "keywords".toList,
                       .lit "1.".toList, .cat [.lit "1".toList, .cls .space],
                       .litCI "i.".toList]]

/-- Second abstract pattern:
`(?:abstract|summary)\s*\n+(.*?)(?:\n\s*\n)`. -/
def abstractPat2 : Regex :=
  .cat [abstractKw, Regex.starG .space, Regex.plusG (.oneOf ['\n']),
        .group 1 Regex.lazyDotStar,
        .lit ['\n'], Regex.starG .space, .lit ['\n']]

/-- Third abstract pattern:
`(?:^|\n)\s*abstract\s*\n(.*?)(?:\n\s*\n)`. -/
def abstractPat3 : Regex :=
  .cat [.alt .bos (.lit ['\n']), Regex.starG .space, .litCI "abstract".toList,
        Regex.starG .space, .lit ['\n'],
        .group 1 Regex.lazyDotStar,
        .lit ['\n'], Regex.starG .space, .lit ['\n']]

/-- The abstract-seeking loop of `_extract_summary`: first pattern whose
match yields a stripped group longer than 50 characters with at least one
sentence longer than 20 characters (after stripping). -/
def summaryFromPats (t : List Char) : List Regex → Option (List Char)
  | [] => none
  | p :: ps =>
      match reSearch p t with
      | some m =>
          let ab := pyStrip (groupSlice t m 1)
          if 50 < ab.length then
            let ss := (splitNoCap sentenceSplitPat ab).filterMap fun s =>
              let st := pyStrip s
              if 20 < st.length then some st else none
            if ss ≠ [] then some (joinSep ' ' (ss.take 5))
            else summaryFromPats t ps
          else summaryFromPats t ps
      | none => summaryFromPats t ps

/-- `DocumentAnalyzer._extract_summary` (default `max_sentences = 5`). -/
def extractSummary (t0 : List Char) : List Char :=
  let t := fixReversedText t0
  match summaryFromPats t [abstractPat1, abstractPat2, abstractPat3] with
  | some s => s
  | none =>
      let meaningful := (splitNoCap sentenceSplitPat t).filterMap fun s =>
        let st := pyStrip s
        if 30 < st.length then some st else none
      joinSep ' ' (meaningful.take 5)

/-- Pattern `\b[a-zA-Z]{3,}\b` (keyword tokens). -/
def keywordTokenPat : Regex :=
  .cat [.wordB, .repRange .alphaChar 3 none false, .wordB]

/-- Adjacent-word bigrams of `_extract_keywords` (pairs of distinct
neighbours, joined with a space). -/
def bigramsOf (l : List (List Char)) : List (List Char) :=
  (l.zip l.tail).filterMap fun p =>
    if p.1 ≠ p.2 then some (p.1 ++ ' ' :: p.2) else none

/-- The bigram-merging loop of `_extract_keywords`. -/
def mergeBigrams (topBigrams : List (List Char)) :
    List (List Char) × List (List Char) :=
  (topBigrams.take 8).foldl
    (fun acc bg =>
      let bgWords := pySplit bg
      if (counterKeys bgWords).length < bgWords.length then acc
      else (acc.1 ++ [bg], acc.2 ++ bgWords))
    ([], [])

/-- The unigram-filling loop of `_extract_keywords` (`top_n = 20`). -/
def fillUnigrams (topN : Nat) (topUnigrams : List (List Char))
    (acc : List (List Char) × List (List Char)) :
    List (List Char) × List (List Char) :=
  topUnigrams.foldl
    (fun acc ug =>
      if !acc.2.contains ug ∧ acc.1.length < topN then
        if !ug.any (fun c => "aeiou".toList.contains c) then acc
        else (acc.1 ++ [ug], acc.2 ++ [ug])
      else acc)
    acc

/-- `DocumentAnalyzer._extract_keywords` (default `top_n = 20`). -/
def extractKeywords (t0 : List Char) : List (List Char) :=
  let topN := 20
  let t := fixReversedText t0
  let words := findallWhole keywordTokenPat (pyLower t)
  let filtered := words.filter fun w =>
    !stopwordsList.contains w && 3 ≤ w.length && w.length ≤ 25
  let counter := counterPairs filtered
  let bigramCounter := counterPairs (bigramsOf filtered)
  let topUnigrams := (mostCommon (topN * 2) counter).filterMap fun p =>
    if p.2 ≥ 2 then some p.1 else none
  let topBigrams := (mostCommon 15 bigramCounter).filterMap fun p =>
    if p.2 ≥ 3 then some p.1 else none
  let merged := fillUnigrams topN topUnigrams (mergeBigrams topBigrams)
  merged.1.take topN

/-- One trigger pattern of `_generate_suggested_questions`
(`\b(?:…|…)\b`, searched in the lowercased text). -/
def qTrigger (alts : List Regex) : Regex :=
  .cat [.wordB, Regex.altList alts, .wordB]

/-- `state.of.the.art` with `.` as any non-newline character. -/
def sotaPat : Regex :=
  .cat [.lit "state".toList, .cls .anyNoNl, .lit "of".toList, .cls .anyNoNl,
        .lit "the".toList, .cls .anyNoNl, .lit "art".toList]

/-- `DocumentAnalyzer._generate_suggested_questions`. -/
def genQuestions (t : List Char) (keywords : List (List Char)) :
    List (List Char) :=
  let tl := pyLower t
  let q1 : List (List Char) :=
    if searchBool (qTrigger [.lit "method".toList, .lit "methodology".toList,
                             .lit "approach".toList]) tl then
      ["What methodology or approach does this paper use?".toList] else []
  let q2 : List (List Char) :=
    if searchBool (qTrigger [.lit "result".toList, .lit "finding".toList,
                             .lit "experiment".toList]) tl then
      ["What are the main results and findings?".toList] else []
  let q3 : List (List Char) :=
    if searchBool (qTrigger [.lit "conclusion".toList,
                             .lit "future work".toList,
                             .lit "limitation".toList]) tl then
      ["What are the conclusions and limitations?".toList] else []
  let q4 : List (List Char) :=
    if searchBool (qTrigger [.lit "contribut".toList, .lit "novel".toList,
                             .lit "propos".toList]) tl then
      ["What are the key contributions of this work?".toList] else []
  let q5 : List (List Char) :=
    if searchBool (qTrigger [.lit "compar".toList, .lit "baseline".toList,
                             .lit "benchmark".toList, sotaPat]) tl then
      ["How does this approach compare to existing methods?".toList] else []
  let qk : List (List Char) :=
    match keywords with
    | [] => []
    | kw :: _ =>
        ["Can you explain the role of ".toList ++ [aposChar] ++ kw ++
         [aposChar] ++ " in this paper?".toList]
  let questions := q1 ++ q2 ++ q3 ++ q4 ++ q5 ++ qk
  let questions :=
    if questions = [] then
      ["What is this paper about?".toList,
       "What problem does this paper address?".toList]
    else questions
  questions.take 5

/-- `DocumentAnalyzer.analyze_document`. -/
def analyzeDocument (t : List Char) : AnalysisRec :=
  if t = [] ∨ pyStrip t = [] then
    ⟨⟨0, "0 min".toList, none, none, none⟩, [], [], []⟩
  else
    let stats := computeStats t
    let summary := extractSummary t
    let keywords := extractKeywords t
    let questions := genQuestions t keywords
    ⟨stats, summary, keywords, questions⟩

/-! ### Helper lemmas -/

theorem dropWhile_subset' {α : Type} (p : α → Bool) (l : List α) :
    l.dropWhile p ⊆ l := by
  induction l with
  | nil => simp [List.dropWhile]
  | cons a l ih =>
      simp only [List.dropWhile]
      split
      · exact fun x hx => List.mem_cons_of_mem _ (ih hx)
      · exact fun x hx => hx

theorem pyStrip_subset (s : List Char) : pyStrip s ⊆ s := by
  intro c hc
  simp only [pyStrip] at hc
  rw [List.mem_reverse] at hc
  have h1 : c ∈ (s.dropWhile isPySpace).reverse := dropWhile_subset' _ _ hc
  rw [List.mem_reverse] at h1
  exact dropWhile_subset' _ _ h1

theorem pyStrip_length_le (s : List Char) : (pyStrip s).length ≤ s.length := by
  simp only [pyStrip, List.length_reverse]
  calc ((s.dropWhile isPySpace).reverse.dropWhile isPySpace).length
      ≤ (s.dropWhile isPySpace).reverse.length := dropWhile_length_le _ _
    _ = (s.dropWhile isPySpace).length := List.length_reverse _
    _ ≤ s.length := dropWhile_length_le _ _

theorem pyStrip_eq_nil_of_all_space {s : List Char}
    (h : ∀ c ∈ s, isPySpace c = true) : pyStrip s = [] := by
  have h1 : s.dropWhile isPySpace = [] := List.dropWhile_eq_nil_iff.mpr h
  simp [pyStrip, h1]

theorem all_space_of_pyStrip_eq_nil {s : List Char}
    (h : pyStrip s = []) : ∀ c ∈ s, isPySpace c = true := by
  intro c hc
  simp only [pyStrip] at h
  have h1 : (s.dropWhile isPySpace).reverse.dropWhile isPySpace = [] := by
    cases he : (s.dropWhile isPySpace).reverse.dropWhile isPySpace with
    | nil => rfl
    | cons a l => rw [he] at h; simp at h
  have h2 : ∀ x ∈ (s.dropWhile isPySpace).reverse, isPySpace x = true :=
    List.dropWhile_eq_nil_iff.mp h1
  have h3 : ∀ x ∈ s.dropWhile isPySpace, isPySpace x = true := by
    intro x hx
    exact h2 x (List.mem_reverse.mpr hx)
  have h4 : s = s.takeWhile isPySpace ++ s.dropWhile isPySpace :=
    (List.takeWhile_append_dropWhile _ _).symm
  rw [h4] at hc
  rcases List.mem_append.mp hc with hT | hD
  · exact List.mem_takeWhile_imp hT
  · exact h3 c hD

theorem toLower_eq_self_of_space {c : Char} (h : isPySpace c = true) :
    c.toLower = c := by
  have hv : ¬(c.toNat ≥ 65 ∧ c.toNat ≤ 90) := by
    simp only [isPySpace, Bool.or_eq_true, Bool.and_eq_true,
      decide_eq_true_eq] at h
    omega
  simp [Char.toLower, hv]

theorem sliceOf_subset (t : List Char) (a b : Nat) : sliceOf t a b ⊆ t := by
  intro c hc
  exact List.drop_subset _ _ (List.take_subset _ _ hc)

theorem splitCapGo_slices (t : List Char) (pos : Nat) (ms : List RMatch) :
    ∀ p ∈ splitCapGo t pos ms, ∃ a b, p = sliceOf t a b := by
  induction ms generalizing pos with
  | nil =>
      intro p hp
      simp only [splitCapGo, List.mem_singleton] at hp
      exact ⟨pos, t.length, hp⟩
  | cons m ms ih =>
      intro p hp
      simp only [splitCapGo, List.mem_cons] at hp
      rcases hp with h | h | h
      · exact ⟨pos, m.mstart, h⟩
      · simp only [groupSlice] at h
        cases hg : m.groups.find? (fun g => g.1 = 1) with
        | some g => rw [hg] at h; exact ⟨g.2.1, g.2.2, h⟩
        | none =>
            rw [hg] at h
            exact ⟨0, 0, by simp [h, sliceOf]⟩
      · exact ih m.mstop p h

theorem splitCap_slices (r : Regex) (t : List Char) :
    ∀ p ∈ splitCap r t, ∃ a b, p = sliceOf t a b :=
  fun p hp => splitCapGo_slices t 0 _ p hp

/-- The seven academic headers are at most 12 characters long. -/
theorem academicHeaders_short : ∀ h ∈ academicHeaders, h.length ≤ 12 := by
  decide

theorem sectionHeaderTest_length {p : List Char}
    (h : sectionHeaderTest p = true) : p.length ≤ 13 := by
  simp only [sectionHeaderTest, List.any_eq_true, Bool.or_eq_true,
    decide_eq_true_eq] at h
  obtain ⟨hd, hmem, hcase⟩ := h
  have hlen : p.length = (pyLower p).length := by simp [pyLower]
  have hh : hd.length ≤ 12 := academicHeaders_short hd hmem
  rcases hcase with he | he
  · rw [hlen, he]
    simp [pyLower]
    omega
  · rw [hlen, he]
    simp [pyLower]
    omega

theorem sectionHeaderTest_space_false {p : List Char}
    (h : ∀ c ∈ p, isPySpace c = true) : sectionHeaderTest p = false := by
  rw [Bool.eq_false_iff]
  intro hcon
  simp only [sectionHeaderTest, List.any_eq_true, Bool.or_eq_true,
    decide_eq_true_eq] at hcon
  obtain ⟨hd, hmem, hcase⟩ := hcon
  have hlow : ∀ c ∈ pyLower p, isPySpace c = true := by
    intro c hc
    simp only [pyLower, List.mem_map] at hc
    obtain ⟨c0, hc0, hce⟩ := hc
    rw [← hce, toLower_eq_self_of_space (h c0 hc0)]
    exact h c0 hc0
  have hwit : ∀ q ∈ academicHeaders, ∃ c ∈ pyLower q, isPySpace c = false := by
    decide
  obtain ⟨cq, hcq, hcqs⟩ := hwit hd hmem
  have hcp : cq ∈ pyLower p := by
    rcases hcase with he | he
    · rw [he]; exact hcq
    · rw [he]; exact List.mem_append_left _ hcq
  rw [hlow cq hcp] at hcqs
  exact absurd hcqs (by simp)

theorem pySplitAux_all_space {s : List Char}
    (h : ∀ c ∈ s, isPySpace c = true) : pySplitAux s [] = [] := by
  induction s with
  | nil => simp [pySplitAux]
  | cons c rest ih =>
      have hc : isPySpace c = true := h c (by simp)
      simp only [pySplitAux, hc, if_true, if_pos rfl]
      exact ih fun x hx => h x (List.mem_cons_of_mem _ hx)

theorem pySplit_all_space {s : List Char}
    (h : ∀ c ∈ s, isPySpace c = true) : pySplit s = [] :=
  pySplitAux_all_space h

theorem pyInsertStable_mem {α : Type} (before : α → α → Bool) (x a : α)
    (l : List α) : a ∈ pyInsertStable before x l ↔ a = x ∨ a ∈ l := by
  induction l with
  | nil => simp [pyInsertStable]
  | cons y ys ih =>
      simp only [pyInsertStable]
      split
      · simp only [List.mem_cons, ih]
        tauto
      · simp only [List.mem_cons]

theorem pySortStable_mem {α : Type} (before : α → α → Bool) (l : List α)
    (a : α) : a ∈ pySortStable before l ↔ a ∈ l := by
  induction l with
  | nil => simp [pySortStable]
  | cons x xs ih =>
      simp only [pySortStable, List.foldr_cons] at *
      rw [pyInsertStable_mem]
      simp only [List.mem_cons, ih]

theorem pyInsertStable_head {α : Type} (before : α → α → Bool) (x : α)
    (l : List α) :
    (pyInsertStable before x l).head? = some x ∨
      (pyInsertStable before x l).head? = l.head? := by
  cases l with
  | nil => simp [pyInsertStable]
  | cons y ys =>
      simp only [pyInsertStable]
      split
      · right; rfl
      · left; rfl

theorem pyInsertStable_chain {α : Type} (key : α → Nat) (x : α) (l : List α)
    (h : List.Chain' (fun a b => key a ≤ key b) l) :
    List.Chain' (fun a b => key a ≤ key b)
      (pyInsertStable (fun y z => decide (key y < key z)) x l) := by
  induction l with
  | nil => simp [pyInsertStable]
  | cons y ys ih =>
      rw [List.chain'_cons'] at h
      simp only [pyInsertStable]
      split
      · rename_i hlt
        simp only [decide_eq_true_eq] at hlt
        rw [List.chain'_cons']
        refine ⟨?_, ih h.2⟩
        intro b hb
        rcases pyInsertStable_head (fun y z => decide (key y < key z)) x ys with
          hh | hh
        · rw [hh] at hb
          simp only [Option.mem_def, Option.some_inj] at hb
          subst hb
          omega
        · rw [hh] at hb
          exact h.1 b hb
      · rename_i hge
        simp only [decide_eq_true_eq, Nat.not_lt] at hge
        rw [List.chain'_cons']
        refine ⟨?_, List.chain'_cons'.mpr h⟩
        intro b hb
        simp only [List.head?_cons, Option.mem_def, Option.some_inj] at hb
        subst hb
        omega

theorem pySortStable_chain {α : Type} (key : α → Nat) (l : List α) :
    List.Chain' (fun a b => key a ≤ key b)
      (pySortStable (fun y z => decide (key y < key z)) l) := by
  induction l with
  | nil => simp [pySortStable]
  | cons x xs ih =>
      simp only [pySortStable, List.foldr_cons] at *
      exact pyInsertStable_chain key x _ ih

theorem buildSections_start (t : List Char) (m : SecMatch) (ms : List SecMatch) :
    ∃ s rest, buildSections t (m :: ms) = s :: rest ∧ s.start_pos = m.start := by
  cases ms with
  | nil => exact ⟨_, _, rfl, rfl⟩
  | cons m2 ms2 => exact ⟨_, _, rfl, rfl⟩

theorem buildSections_chain (t : List Char) (ms : List SecMatch)
    (h : List.Chain' (fun a b => a.start ≤ b.start) ms) :
    List.Chain' (fun s1 s2 => s1.end_pos ≤ s2.start_pos ∧
      s1.start_pos ≤ s2.start_pos) (buildSections t ms) := by
  induction ms with
  | nil => simp [buildSections]
  | cons m rest ih =>
      cases rest with
      | nil => simp [buildSections]
      | cons m2 rest2 =>
          rw [List.chain'_cons'] at h
          have htail := ih h.2
          obtain ⟨s2, tail2, heq, hstart⟩ := buildSections_start t m2 rest2
          simp only [buildSections] at heq ⊢
          rw [List.chain'_cons']
          constructor
          · intro b hb
            rw [heq] at hb
            simp only [List.head?_cons, Option.mem_def, Option.some_inj] at hb
            subst hb
            constructor
            · rw [hstart]
            · rw [hstart]
              have := h.1 m2 (by simp)
              exact this
          · exact htail

theorem buildSections_content_le (t : List Char) (ms : List SecMatch) :
    ∀ s ∈ buildSections t ms, s.content.length ≤ 2000 := by
  induction ms with
  | nil => simp [buildSections]
  | cons m rest ih =>
      intro s hs
      simp only [buildSections, List.mem_cons] at hs
      rcases hs with h | h
      · subst h
        simp only [List.length_take]
        omega
      · exact ih s h

theorem joinSep_append (sep : Char) (l : List (List Char)) (w : List Char)
    (h : l ≠ []) : joinSep sep (l ++ [w]) = joinSep sep l ++ sep :: w := by
  induction l with
  | nil => exact absurd rfl h
  | cons a l ih =>
      cases l with
      | nil => simp [joinSep]
      | cons b m =>
          have hrec := ih (by simp)
          calc joinSep sep (a :: b :: m ++ [w])
              = a ++ sep :: joinSep sep (b :: m ++ [w]) := rfl
            _ = a ++ sep :: (joinSep sep (b :: m) ++ sep :: w) := by rw [hrec]
            _ = (a ++ sep :: joinSep sep (b :: m)) ++ sep :: w := by simp
            _ = joinSep sep (a :: b :: m) ++ sep :: w := rfl

theorem pySplitAux_no_space (s : List Char) :
    ∀ acc : List Char, (∀ c ∈ acc, isPySpace c = false) →
    ∀ w ∈ pySplitAux s acc, ∀ c ∈ w, isPySpace c = false := by
  induction s with
  | nil =>
      intro acc hacc w hw
      simp only [pySplitAux] at hw
      split at hw
      · simp at hw
      · simp only [List.mem_singleton] at hw
        subst hw
        intro c hc
        exact hacc c (List.mem_reverse.mp hc)
  | cons ch rest ih =>
      intro acc hacc w hw
      simp only [pySplitAux] at hw
      by_cases hch : isPySpace ch = true
      · rw [if_pos hch] at hw
        split at hw
        · exact ih [] (by simp) w hw
        · simp only [List.mem_cons] at hw
          rcases hw with hw | hw
          · subst hw
            intro c hc
            exact hacc c (List.mem_reverse.mp hc)
          · exact ih [] (by simp) w hw
      · rw [if_neg hch] at hw
        refine ih (ch :: acc) ?_ w hw
        intro c hc
        rcases List.mem_cons.mp hc with hc | hc
        · subst hc
          exact Bool.eq_false_iff.mpr hch
        · exact hacc c hc

theorem pySplit_no_space (s : List Char) :
    ∀ w ∈ pySplit s, ∀ c ∈ w, isPySpace c = false :=
  pySplitAux_no_space s [] (by simp)

/-- A buffer element is either whitespace-free (a word from `str.split()`)
or short (a header part, at most 12 characters plus an optional final
newline). -/
def elemOk (e : List Char) : Prop :=
  (∀ c ∈ e, isPySpace c = false) ∨ e.length ≤ 13

/-- The size-budget property of one produced chunk: a chunk containing any
whitespace (i.e. not a single token) is at most `chunkSize + 13` characters
long. -/
def chunkOk (cs : Nat) (c : TextChunk) : Prop :=
  (∃ ch ∈ c.content, isPySpace ch = true) → c.content.length ≤ cs + 13

/-- Invariant of the chunking loop state. -/
structure StInv (cs : Nat) (st : ChunkState) : Prop where
  emptyLen : st.buf = [] → st.len = 0
  elems : ∀ e ∈ st.buf, elemOk e
  joinLe : st.buf ≠ [] → (joinSep ' ' st.buf).length ≤ st.len + 13
  lenOrSingle : st.len ≤ cs ∨ ∃ e, st.buf = [e]
  chunksOk : ∀ c ∈ st.chunks, chunkOk cs c

theorem flushChunk_ok {cs : Nat} {st : ChunkState} (hinv : StInv cs st)
    (hne : st.buf ≠ []) : chunkOk cs (flushChunk st) := by
  intro hws
  obtain ⟨ch, hch, hchws⟩ := hws
  simp only [flushChunk] at hch ⊢
  cases hb : st.buf with
  | nil => exact absurd hb hne
  | cons e rest =>
      cases rest with
      | nil =>
          have he := hinv.elems e (by rw [hb]; simp)
          rw [hb] at hch
          rcases he with hnows | hlen
          · have hche : ch ∈ e := pyStrip_subset e (by simpa [joinSep] using hch)
            rw [hnows ch hche] at hchws
            exact absurd hchws (by simp)
          · have h1 : joinSep ' ' [e] = e := rfl
            rw [h1]
            have h2 := pyStrip_length_le e
            omega
      | cons e2 rest2 =>
          have hlen : st.len ≤ cs := by
            rcases hinv.lenOrSingle with h | ⟨e0, he0⟩
            · exact h
            · rw [hb] at he0; simp at he0
          have hj := hinv.joinLe hne
          rw [hb] at hj
          have h2 := pyStrip_length_le (joinSep ' ' (e :: e2 :: rest2))
          omega

theorem stepWord_inv {cs : Nat} {st : ChunkState} (hinv : StInv cs st)
    {w : List Char} (hw : ∀ c ∈ w, isPySpace c = false) :
    StInv cs (stepWord cs st w) := by
  simp only [stepWord]
  by_cases hov : st.len + (w.length + 1) > cs
  · rw [if_pos hov]
    by_cases hb : st.buf = []
    · rw [if_pos hb]
      refine ⟨by intro h; dsimp only at h; simp at h, ?_, ?_, ?_, ?_⟩
      · intro e he
        dsimp only at he
        simp only [List.mem_singleton] at he
        subst he
        exact Or.inl hw
      · intro _
        dsimp only
        simp only [joinSep]
        omega
      · exact Or.inr ⟨w, rfl⟩
      · exact hinv.chunksOk
    · rw [if_neg hb]
      refine ⟨by intro h; dsimp only at h; simp at h, ?_, ?_, ?_, ?_⟩
      · intro e he
        dsimp only at he
        simp only [List.mem_singleton] at he
        subst he
        exact Or.inl hw
      · intro _
        dsimp only
        simp only [joinSep]
        omega
      · exact Or.inr ⟨w, rfl⟩
      · intro c hc
        dsimp only at hc
        simp only [List.mem_append, List.mem_singleton] at hc
        rcases hc with hc | hc
        · exact hinv.chunksOk c hc
        · subst hc
          exact flushChunk_ok hinv hb
  · rw [if_neg hov]
    refine ⟨?_, ?_, ?_, ?_, ?_⟩
    · intro h
      dsimp only at h
      simp at h
    · intro e he
      dsimp only at he
      rcases List.mem_append.mp he with he | he
      · exact hinv.elems e he
      · simp only [List.mem_singleton] at he
        subst he
        exact Or.inl hw
    · intro _
      dsimp only
      by_cases hb : st.buf = []
      · rw [hb]
        have h0 : st.len = 0 := hinv.emptyLen hb
        simp only [List.nil_append, joinSep]
        omega
      · rw [joinSep_append ' ' st.buf w hb]
        have hj := hinv.joinLe hb
        simp only [List.length_append, List.length_cons]
        omega
    · left
      dsimp only
      omega
    · exact hinv.chunksOk

theorem foldl_stepWord_inv (cs : Nat) (ws : List (List Char))
    {st : ChunkState} (hinv : StInv cs st)
    (hws : ∀ w ∈ ws, ∀ c ∈ w, isPySpace c = false) :
    StInv cs (ws.foldl (stepWord cs) st) := by
  induction ws generalizing st with
  | nil => exact hinv
  | cons w ws ih =>
      rw [List.foldl_cons]
      exact ih (stepWord_inv hinv (hws w (by simp)))
        (fun w' hw' => hws w' (List.mem_cons_of_mem _ hw'))

theorem stepPart_inv {cs : Nat} {st : ChunkState} (hinv : StInv cs st)
    (part : List Char) : StInv cs (stepPart cs st part) := by
  simp only [stepPart]
  by_cases hsec : sectionHeaderTest part = true
  · rw [if_pos hsec]
    have hplen : part.length ≤ 13 := sectionHeaderTest_length hsec
    by_cases hb : st.buf = []
    · rw [if_pos hb]
      refine ⟨?_, ?_, ?_, ?_, ?_⟩
      · intro h
        rw [hb] at h
        simp at h
      · intro e he
        rw [hb] at he
        simp only [List.nil_append, List.mem_singleton] at he
        subst he
        exact Or.inr hplen
      · intro _
        rw [hb]
        have h0 : st.len = 0 := hinv.emptyLen hb
        simp only [List.nil_append, joinSep]
        omega
      · exact Or.inr ⟨part, by dsimp only; rw [hb]; rfl⟩
      · exact hinv.chunksOk
    · rw [if_neg hb]
      refine ⟨?_, ?_, ?_, ?_, ?_⟩
      · intro h
        simp at h
      · intro e he
        simp only [List.nil_append, List.mem_singleton] at he
        subst he
        exact Or.inr hplen
      · intro _
        simp only [List.nil_append, joinSep]
        omega
      · exact Or.inr ⟨part, by simp⟩
      · intro c hc
        simp only [List.mem_append, List.mem_singleton] at hc
        rcases hc with hc | hc
        · exact hinv.chunksOk c hc
        · subst hc
          exact flushChunk_ok hinv hb
  · rw [if_neg hsec]
    exact foldl_stepWord_inv cs (pySplit part) hinv (pySplit_no_space part)

theorem foldl_stepPart_inv (cs : Nat) (parts : List (List Char))
    {st : ChunkState} (hinv : StInv cs st) :
    StInv cs (parts.foldl (stepPart cs) st) := by
  induction parts generalizing st with
  | nil => exact hinv
  | cons p ps ih => exact ih (stepPart_inv hinv p)

theorem initial_StInv (cs : Nat) : StInv cs ⟨[], [], 0, 0, none⟩ :=
  ⟨fun _ => rfl, by simp, fun h => absurd rfl h, Or.inl (Nat.zero_le cs),
   by simp⟩

theorem createChunks_chunkOk (cs : Nat) (text : List Char) :
    ∀ c ∈ createChunks cs text, chunkOk cs c := by
  intro c hc
  simp only [createChunks] at hc
  split at hc
  · simp at hc
  · have hinv : StInv cs ((splitCap headerPat text).foldl (stepPart cs)
        ⟨[], [], 0, 0, none⟩) :=
      foldl_stepPart_inv cs _ (initial_StInv cs)
    split at hc
    · exact hinv.chunksOk c hc
    · rcases List.mem_append.mp hc with h | h
      · exact hinv.chunksOk c h
      · simp only [List.mem_singleton] at h
        subst h
        rename_i hne
        exact flushChunk_ok hinv hne

theorem stepPart_space_id (cs : Nat) (st : ChunkState) {part : List Char}
    (h : ∀ c ∈ part, isPySpace c = true) : stepPart cs st part = st := by
  simp only [stepPart, sectionHeaderTest_space_false h, pySplit_all_space h]
  simp

theorem foldl_stepPart_space (cs : Nat) (parts : List (List Char))
    (st : ChunkState)
    (h : ∀ p ∈ parts, ∀ c ∈ p, isPySpace c = true) :
    parts.foldl (stepPart cs) st = st := by
  induction parts with
  | nil => rfl
  | cons p ps ih =>
      rw [List.foldl_cons, stepPart_space_id cs st (h p (by simp))]
      exact ih fun q hq => h q (List.mem_cons_of_mem _ hq)

theorem createChunks_space (cs : Nat) {text : List Char}
    (h : ∀ c ∈ text, isPySpace c = true) : createChunks cs text = [] := by
  by_cases he : text = []
  · simp [createChunks, he]
  · simp only [createChunks, if_neg he]
    have hparts : ∀ p ∈ splitCap headerPat text, ∀ c ∈ p, isPySpace c = true := by
      intro p hp c hc
      obtain ⟨a, b, rfl⟩ := splitCap_slices _ _ p hp
      exact h c (sliceOf_subset _ _ _ hc)
    rw [foldl_stepPart_space cs _ _ hparts]
    simp

theorem counterKeys_subset {α : Type} [DecidableEq α] (xs : List α) :
    ∀ a ∈ counterKeys xs, a ∈ xs := by
  suffices h : ∀ acc : List α, ∀ a ∈ xs.foldl
      (fun acc x => if acc.contains x then acc else acc ++ [x]) acc,
      a ∈ acc ∨ a ∈ xs by
    intro a ha
    rcases h [] a ha with h1 | h1
    · simp at h1
    · exact h1
  induction xs with
  | nil => exact fun acc a ha => Or.inl ha
  | cons x xs ih =>
      intro acc a ha
      rw [List.foldl_cons] at ha
      rcases ih _ a ha with h1 | h1
      · by_cases hx : acc.contains x
        · rw [if_pos hx] at h1
          exact Or.inl h1
        · rw [if_neg hx] at h1
          rcases List.mem_append.mp h1 with h2 | h2
          · exact Or.inl h2
          · simp only [List.mem_singleton] at h2
            subst h2
            exact Or.inr (by simp)
      · exact Or.inr (List.mem_cons_of_mem _ h1)

theorem counterPairs_pos {α : Type} [DecidableEq α] (xs : List α) :
    ∀ p ∈ counterPairs xs, 1 ≤ p.2 := by
  intro p hp
  simp only [counterPairs, List.mem_map] at hp
  obtain ⟨k, hk, rfl⟩ := hp
  have hmem := counterKeys_subset xs k hk
  have := List.count_pos_iff.mpr hmem
  omega

theorem extractTechnicalTermsTop_freq_pos (topN : Nat) (text : List Char) :
    ∀ t ∈ extractTechnicalTermsTop topN text, 1 ≤ t.frequency := by
  intro t ht
  simp only [extractTechnicalTermsTop, List.mem_map] at ht
  obtain ⟨p, hp, rfl⟩ := ht
  have hfreq : (mkTermRec (cleanPdfText text) p).frequency = p.2 := rfl
  rw [hfreq]
  have hp2 := List.take_subset _ _ hp
  rw [pySortStable_mem] at hp2
  rcases List.mem_append.mp hp2 with hmem | hmem
  · simp only [List.mem_filterMap] at hmem
    obtain ⟨term, _, heq⟩ := hmem
    split at heq
    · rename_i hpos
      cases heq
      omega
    · simp at heq
  · have hmc := (List.mem_filter.mp hmem).1
    have hcp : p ∈ counterPairs (findallGroup1 acronymPat (cleanPdfText text)) := by
      have h1 := List.take_subset _ _ hmc
      rw [pySortStable_mem] at h1
      exact h1
    exact counterPairs_pos _ p hcp

/-! ### Claims -/

/-- C1: the claim states that every chunk of
`TextProcessor.create_chunks(text, return_metadata=True)` satisfies
`0 ≤ start_offset ≤ end_offset ≤ len(text)`.  The code violates the upper
bound: on the 11-character input `"\nAbstract\nx"` it produces a single
chunk with `start_offset = 9` and `end_offset = 19 > 11` (the offset
bookkeeping advances only on header parts and over-counts the characters
the header split consumed), contradicting the `TextChunk` docstring
("position in original text").  This theorem evaluates the embedded code at
that failing input. -/
theorem c1_offset_bound_violated :
    createChunks defaultChunkSize "\nAbstract\nx".toList =
      [⟨"Abstract x".toList, 9, 19, some "Abstract".toList⟩] ∧
    ("\nAbstract\nx".toList.length = 11 ∧ (11 : Nat) < 19) := by
  constructor
  · decide
  · decide

/-- C2 (counterexample): on the spec's own example input,
`extract_figures_tables_equations` returns three entries all titled
`"Figure 1"` — not exactly one deduplicated entry, and two entries share
the same (hence the same normalized) title, so the claim is false. -/
theorem c2_duplicate_titles :
    ((extractFiguresTablesEquations
        "Figure 1: Loss curve. ... Figure 1 shows improvement.".toList).map
      FigureRec.title) =
      ["Figure 1".toList, "Figure 1".toList, "Figure 1".toList] := by
  decide

/-- C2 (amended): `extract_figures_tables_equations` performs no
deduplication: every regex match of every pattern yields its own entry
(with sequential ids, capped at 20), so the example input mentioning
"Figure 1" twice yields three entries titled "Figure 1" — one from the
captioned pattern (whose caption swallows the rest of the line) and one
from the bare pattern per occurrence. -/
theorem c2_no_dedup_entries :
    extractFiguresTablesEquations
        "Figure 1: Loss curve. ... Figure 1 shows improvement.".toList =
      [⟨1, "figure".toList, "Figure 1".toList,
        "Loss curve. ... Figure 1 shows improvement.".toList, 1,
        "Figure 1: Loss curve. ... Figure 1 shows improvement.".toList⟩,
       ⟨2, "figure".toList, "Figure 1".toList, "Figure 1".toList, 1,
        "Figure 1".toList⟩,
       ⟨3, "figure".toList, "Figure 1".toList, "Figure 1".toList, 1,
        "Figure 1".toList⟩] := by
  decide

/-- C3 (counterexample): the claim states every returned term has
`frequency ≥ 2`.  On the input `"transformer"` the code returns a term
with `frequency = 1` (the inclusion test in the source is `count > 0`,
not `count ≥ 2`), so the claim is false. -/
theorem c3_frequency_one_term :
    extractTechnicalTerms "transformer".toList =
      [⟨"Transformer".toList, [], 1, "Term found in document".toList⟩] ∧
    (extractTechnicalTerms "transformer".toList).any
      (fun t => t.frequency < 2) = true := by
  constructor
  · decide
  · decide

/-- C3 (amended): every term returned by
`PaperAnalyzer.extract_technical_terms` has `frequency ≥ 1` — zero-count
dictionary candidates are excluded, but single-occurrence candidates are
included. -/
theorem c3_frequency_floor_one (text : List Char) (t : TermRec)
    (h : t ∈ extractTechnicalTerms text) : 1 ≤ t.frequency :=
  extractTechnicalTermsTop_freq_pos 20 text t h

/-- Witness for C3: the frequency floor applied at the concrete input
`"transformer"`. -/
theorem c3_frequency_floor_one_witness :
    (⟨"Transformer".toList, [], 1, "Term found in document".toList⟩ : TermRec)
      ∈ extractTechnicalTerms "transformer".toList ∧
    1 ≤ (⟨"Transformer".toList, [], 1,
          "Term found in document".toList⟩ : TermRec).frequency :=
  ⟨by decide, c3_frequency_floor_one "transformer".toList _ (by decide)⟩

/-- C4: (a) every chunk produced by `create_chunks` that contains any
whitespace (i.e. is not a single over-long token) is at most
`chunk_size + 13` characters long (13 = the longest header,
"Introduction", plus its optional trailing newline — the header word is
appended to the buffer without being counted in `current_length`, which
together with the join-separator accounting is the entire slack); and
(b) whenever adding the next word would overflow `chunk_size`, the buffer
is flushed (if nonempty) as a chunk and a new buffer is started with
exactly that word. -/
theorem c4_size_budget_and_flush :
    (∀ (cs : Nat) (text : List Char), ∀ c ∈ createChunks cs text,
        (∃ ch ∈ c.content, isPySpace ch = true) →
        c.content.length ≤ cs + 13) ∧
    (∀ (cs : Nat) (st : ChunkState) (w : List Char),
        cs < st.len + (w.length + 1) →
        (stepWord cs st w).buf = [w] ∧
        (stepWord cs st w).chunks =
          st.chunks ++ (if st.buf = [] then [] else [flushChunk st])) := by
  constructor
  · intro cs text c hc hws
    exact createChunks_chunkOk cs text c hc hws
  · intro cs st w hov
    have hgt : st.len + (w.length + 1) > cs := hov
    simp only [stepWord, if_pos hgt]
    by_cases hb : st.buf = []
    · rw [if_pos hb]
      simp [hb]
    · rw [if_neg hb]
      simp [hb]

/-- Witness for C4: the size bound at a concrete chunk containing a space,
and the flush behaviour at a concrete overflowing state. -/
theorem c4_size_budget_and_flush_witness :
    ((⟨"ab cd".toList, 0, 5, none⟩ : TextChunk).content.length ≤ 1500 + 13) ∧
    (stepWord 3 ⟨[], ["aa".toList], 3, 0, none⟩ "bb".toList).buf =
      ["bb".toList] := by
  constructor
  · exact c4_size_budget_and_flush.1 1500 "ab cd".toList
      ⟨"ab cd".toList, 0, 5, none⟩ (by decide) ⟨' ', by decide, by decide⟩
  · exact (c4_size_budget_and_flush.2 3 ⟨[], ["aa".toList], 3, 0, none⟩
      "bb".toList (by decide)).1

/-- Modelled on the specification's required order of operations (§4.1
Normalizer): remove noise from the original-case text first, then
lowercase.  Only the order differs from `cleanText`; the pattern list and
the final whitespace normalization are identical.  Used to compare the
code's behaviour with the claimed behaviour. -/
def cleanTextNoiseFirst (text : List Char) : List Char :=
  if text = [] then []
  else
    let t := cleaningPatterns.foldl (fun acc p => subAll p [] acc) text
    pyStrip (subAll wsRunPat [' '] (pyLower t))

/-- C5: the claim (and the docstring of `clean_text`, which promises
removal of figure/table captions) requires noise removal to run on the
original-case text.  The code lowercases first, so the case-sensitive
patterns (`Figure \d+: …`, `Table \d+: …`, `^Source:…`, `See Figure`,
`Eq.`, `(Table|Fig).`) can never match: on `"Figure 1: caption"` the code
keeps the caption (returning `"figure 1: caption"`), while the claimed
remove-then-lowercase order erases it. -/
theorem c5_lowercase_defeats_noise_removal :
    cleanText "Figure 1: caption".toList = "figure 1: caption".toList ∧
    cleanTextNoiseFirst "Figure 1: caption".toList = [] ∧
    cleanText "Figure 1: caption".toList ≠
      cleanTextNoiseFirst "Figure 1: caption".toList := by
  refine ⟨by decide, by decide, by decide⟩

/-- C6 (counterexample): normalization is not idempotent.  Removing the
bracketed text from `"a@b[x].c"` creates the e-mail `"a@b.c"`, which the
(earlier) e-mail rule only removes on a second pass:
`clean_text("a@b[x].c") = "a@b.c"` but `clean_text("a@b.c") = ""`. -/
theorem c6_not_idempotent :
    cleanText "a@b[x].c".toList = "a@b.c".toList ∧
    cleanText (cleanText "a@b[x].c".toList) = [] ∧
    cleanText (cleanText "a@b[x].c".toList) ≠ cleanText "a@b[x].c".toList := by
  refine ⟨by decide, by decide, by decide⟩

/-- C6 (amended): a removal can create a new match for an earlier rule, so
a second pass may change the output; normalization is idempotent exactly on
texts the cleaner already leaves unchanged (and likewise for
`clean_pdf_text`, which fails the same way, e.g. on `">a>x<b<"`). -/
theorem c6_idempotent_on_fixed_points (x y : List Char)
    (hx : cleanText x = x) (hy : cleanPdfText y = y) :
    cleanText (cleanText x) = cleanText x ∧
    cleanPdfText (cleanPdfText y) = cleanPdfText y := by
  constructor
  · rw [hx]
    exact hx
  · rw [hy]
    exact hy

/-- Witness for C6: `"hello world"` is a fixed point of both cleaners. -/
theorem c6_idempotent_on_fixed_points_witness :
    cleanText "hello world".toList = "hello world".toList ∧
    (cleanText (cleanText "hello world".toList) =
        cleanText "hello world".toList ∧
      cleanPdfText (cleanPdfText "hello world".toList) =
        cleanPdfText "hello world".toList) :=
  ⟨by decide, c6_idempotent_on_fixed_points _ _ (by decide) (by decide)⟩

/-- C7 (counterexample): the claim states the un-reversal triggers if and
only if reversed-dictionary hits exceed twice the forward hits and an
absolute floor, over the first ~80 tokens.  The code has an additional
guard the claim omits: inputs with fewer than 10 whitespace-separated
tokens are always returned unchanged.  Nine copies of `"eht"` satisfy the
claimed trigger (9 reversed hits > 2·0 forward hits and > 3) yet the code
returns the text unchanged rather than un-reversing it. -/
theorem c7_short_input_not_reversed :
    ((((pySplit "eht eht eht eht eht eht eht eht eht".toList).take 80).filter
        fun w => commonWords.contains (pyLower w.reverse)).length = 9 ∧
     (((pySplit "eht eht eht eht eht eht eht eht eht".toList).take 80).filter
        fun w => commonWords.contains (pyLower w)).length = 0) ∧
    fixReversedText "eht eht eht eht eht eht eht eht eht".toList =
      "eht eht eht eht eht eht eht eht eht".toList ∧
    joinSep ' ' ((pySplit "eht eht eht eht eht eht eht eht eht".toList).map
        List.reverse) ≠
      "eht eht eht eht eht eht eht eht eht".toList := by
  refine ⟨⟨by decide, by decide⟩, by decide, by decide⟩

/-- C7 (amended): `_fix_reversed_text` un-reverses every token if and only
if the text has at least 10 whitespace-separated tokens and, over the
first 80 tokens, the reversed-dictionary hit count exceeds twice the
forward hit count and exceeds 3; otherwise the text is returned
unchanged. -/
theorem c7_reversal_trigger (text : List Char) :
    fixReversedText text =
      if 10 ≤ (pySplit text).length ∧
         2 * (((pySplit text).take 80).filter (fun w =>
             commonWords.contains (pyLower w))).length <
           (((pySplit text).take 80).filter (fun w =>
             commonWords.contains (pyLower w.reverse))).length ∧
         3 < (((pySplit text).take 80).filter (fun w =>
             commonWords.contains (pyLower w.reverse))).length
      then joinSep ' ' ((pySplit text).map List.reverse)
      else text := by
  unfold fixReversedText
  have htake : (pySplit text).take (min 80 (pySplit text).length) =
      (pySplit text).take 80 := by
    rw [List.take_eq_take]
    omega
  by_cases h10 : (pySplit text).length < 10
  · rw [if_pos h10, if_neg (by omega)]
  · rw [if_neg h10]
    simp only [htake]
    by_cases hc :
        (((pySplit text).take 80).filter (fun w =>
            commonWords.contains (pyLower w.reverse))).length >
          (((pySplit text).take 80).filter (fun w =>
            commonWords.contains (pyLower w))).length * 2 ∧
        (((pySplit text).take 80).filter (fun w =>
            commonWords.contains (pyLower w.reverse))).length > 3
    · rw [if_pos hc, if_pos ⟨by omega, by omega, by omega⟩]
    · rw [if_neg hc, if_neg ?_]
      intro hcon
      exact hc ⟨by omega, by omega⟩

/-- C8: on empty or whitespace-only input, `analyze_document` returns the
default structure (zero word count, empty summary, no keywords) and
`create_chunks` returns the empty list; both functions are total, so no
exception is modelled or needed. -/
theorem c8_empty_input_defaults (text : List Char) (h : pyStrip text = []) :
    (analyzeDocument text).stats.words = 0 ∧
    (analyzeDocument text).summary = [] ∧
    (analyzeDocument text).keywords = [] ∧
    (analyzeDocument text).suggested_questions = [] ∧
    createChunks defaultChunkSize text = [] := by
  have hg : text = [] ∨ pyStrip text = [] := Or.inr h
  rw [analyzeDocument, if_pos hg]
  refine ⟨rfl, rfl, rfl, rfl, ?_⟩
  exact createChunks_space _ (all_space_of_pyStrip_eq_nil h)

/-- Witness for C8: the defaults at the whitespace-only input `"  "`. -/
theorem c8_empty_input_defaults_witness :
    pyStrip "  ".toList = [] ∧
    ((analyzeDocument "  ".toList).stats.words = 0 ∧
      (analyzeDocument "  ".toList).summary = [] ∧
      (analyzeDocument "  ".toList).keywords = [] ∧
      (analyzeDocument "  ".toList).suggested_questions = [] ∧
      createChunks defaultChunkSize "  ".toList = []) :=
  ⟨by decide, c8_empty_input_defaults "  ".toList (by decide)⟩

/-- C9: the sections returned by `PaperAnalyzer.extract_sections` are
sorted by `start_pos` and never overlap: each section's `end_pos` is at
most (in fact equal to) the next section's `start_pos`. -/
theorem c9_sections_sorted_disjoint (text : List Char) :
    List.Chain' (fun s1 s2 => s1.end_pos ≤ s2.start_pos ∧
      s1.start_pos ≤ s2.start_pos) (extractSections text) := by
  have hrw : extractSections text =
      if buildSections text (pySortStable (fun a b => decide (a.start < b.start))
          (sectionMatchesOf text)) = [] then
        [⟨"document".toList, "Full Document".toList, text.take 2000, 1, 0,
          text.length, 0⟩]
      else buildSections text (pySortStable (fun a b => decide (a.start < b.start))
          (sectionMatchesOf text)) := rfl
  rw [hrw]
  split
  · simp
  · exact buildSections_chain text _
      (pySortStable_chain (fun m => m.start) (sectionMatchesOf text))

/-- C10: every section returned by `extract_sections` — including the
synthetic "Full Document" fallback — has a `content` field of at most
2000 characters (the code caps it with `[:2000]`). -/
theorem c10_section_content_capped (text : List Char) (s : PaperSection)
    (h : s ∈ extractSections text) : s.content.length ≤ 2000 := by
  have hrw : extractSections text =
      if buildSections text (pySortStable (fun a b => decide (a.start < b.start))
          (sectionMatchesOf text)) = [] then
        [⟨"document".toList, "Full Document".toList, text.take 2000, 1, 0,
          text.length, 0⟩]
      else buildSections text (pySortStable (fun a b => decide (a.start < b.start))
          (sectionMatchesOf text)) := rfl
  rw [hrw] at h
  split at h
  · simp only [List.mem_singleton] at h
    subst h
    simp only [List.length_take]
    omega
  · exact buildSections_content_le text _ s h

/-- Witness for C10: the cap at the fallback section of the empty text. -/
theorem c10_section_content_capped_witness :
    (⟨"document".toList, "Full Document".toList, [], 1, 0, 0, 0⟩ :
        PaperSection) ∈ extractSections [] ∧
    ((⟨"document".toList, "Full Document".toList, [], 1, 0, 0, 0⟩ :
        PaperSection).content.length ≤ 2000) :=
  ⟨by decide, c10_section_content_capped [] _ (by decide)⟩

end PdfIR
